import Mathlib

/-!
Verification of the editable-document core of the dbcUtility repository
(`src/dbc_editor.py`, class `DBCEditor`), as a shallow embedding.

Modelling conventions, matched against the Python source:

* A signal dict is the record `SignalData`.  Python floats (`scale`,
  `offset`, `minimum`, `maximum`) are modelled as `Rat`: the editor only
  copies and compares these values, it never computes with them.
* A message dict is the record `MsgData`.  Its `signals` entry is a Python
  list object that is mutated in place (`append`, `del`, index assignment)
  and that several dicts can share (the shallow `dict(m)` copies made by
  `save_dbc_file` and `reset_changes` share it).  List identity therefore
  matters, so `MsgData.sigAddr` is the address of the signals list in an
  explicit heap (`Heap`, address = position, allocation = append).  All
  other substructures (`senders`, `receivers`, the signal dicts, the two
  outer message lists) are only ever replaced wholesale by the editor,
  never mutated in place, so they are modelled as plain values.
* `self._original_data` / `self._modified_data` are `None` or a dict
  `{"messages": ...}`; both are `Option (List MsgData)`.  A non-`None`
  dict is always truthy in Python (it has the key `"messages"`), so
  the Python check `not self._modified_data` is exactly `Option.isNone`.
* Python list indexing: a negative index `i` with `-len ≤ i` addresses
  `len + i`; an index out of that range raises `IndexError`.  `pyIdx`
  reproduces this.
* Exceptions are modelled by error codes (`EditorErr`); an operation that
  raises before mutating anything returns the state unchanged.
* The filesystem is an association list `FS` of path/content pairs;
  `open(path, "w")` truncates the file at opening time, before the text
  to be written is even computed, which `save_dbc_file` reproduces.
* Calls into the external `cantools` library (parsing, serialization) are
  parameters of `load_dbc_file` / `save_dbc_file` (`parsed`, `ser`).
-/

namespace DbcUtility

/-- One signal dict, as built by `DBCEditor.load_dbc_file`. -/
structure SignalData where
  name : String
  start_bit : Int
  length : Int
  is_signed : Bool
  scale : Rat
  offset : Rat
  minimum : Option Rat
  maximum : Option Rat
  unit : String
  receivers : List String
  comments : String
deriving DecidableEq

instance : Inhabited SignalData := ⟨⟨"", 0, 0, false, 0, 0, none, none, "", [], ""⟩⟩

/-- Heap of signals-list objects; an address is a position, allocation
appends at the end. -/
abbrev Heap := List (List SignalData)

/-- Dereference a signals-list address. -/
def hGet (h : Heap) (a : Nat) : List SignalData := (h[a]?).getD []

/-- In-place mutation of the signals-list object at address `a`. -/
def hSet (h : Heap) (a : Nat) (l : List SignalData) : Heap := h.set a l

/-- One message dict; `sigAddr` is the identity of its `"signals"` list. -/
structure MsgData where
  name : String
  frame_id : Int
  length : Int
  senders : List String
  sigAddr : Nat
  comments : String
deriving DecidableEq

instance : Inhabited MsgData := ⟨⟨"", 0, 0, [], 0, ""⟩⟩

/-- The mutable state of a `DBCEditor` instance (`self.db` is external and
not modelled). -/
structure Editor where
  heap : Heap
  filePath : Option String
  originalData : Option (List MsgData)
  modifiedData : Option (List MsgData)
deriving DecidableEq

/-- The fresh editor produced by `DBCEditor.__init__`. -/
def initEditor : Editor := ⟨[], none, none, none⟩

/-- Error conditions raised by the editor (`DBCEditorError` messages, plus
the Python built-in `IndexError` for a wrap-around miss). -/
inductive EditorErr where
  | invalidMessageIndex
  | invalidSignalIndex
  | invalidMessageMove
  | invalidSignalMove
  | indexError
  | notFound
  | badExtension
  | parseError
  | noFilePath
  | serializeError
deriving DecidableEq

/-! ### Filesystem model -/

abbrev FS := List (String × String)

def fsGet (fs : FS) (p : String) : Option String :=
  (fs.find? (fun e => e.1 == p)).map (fun e => e.2)

def fsExists (fs : FS) (p : String) : Bool := (fsGet fs p).isSome

def fsSet (fs : FS) (p c : String) : FS :=
  (p, c) :: fs.filter (fun e => e.1 != p)

def fsDel (fs : FS) (p : String) : FS := fs.filter (fun e => e.1 != p)

/-! ### Python list indexing -/

/-- Python index semantics for a list of length `len`: nonnegative indices
must be `< len`, negative indices wrap from the end, anything else is an
`IndexError` (`none`). -/
def pyIdx (len : Nat) (i : Int) : Option Nat :=
  if 0 ≤ i then
    if i < (len : Int) then some i.toNat else none
  else
    if -i ≤ (len : Int) then some (len - (-i).toNat) else none

/-- Python tuple-swap `l[i], l[j] = l[j], l[i]`: both right-hand values are
read from the original list before either store. -/
def listSwap {α : Type} [Inhabited α] (l : List α) (i j : Nat) : List α :=
  (l.set i (l.getD j default)).set j (l.getD i default)

/-! ### Decimal rendering: `Nat.repr` is injective

`duplicate_message` / `duplicate_signal` build candidate names
`f"{base}_{suffix}"`; to reason about the search we need that distinct
suffixes give distinct strings, i.e. that `Nat.repr` is injective.  We
prove it by exhibiting a left inverse (`decValue`, the value of a most
significant-digit-first decimal string). -/

/-- Value of a single decimal digit character. -/
def digitVal (c : Char) : Nat := c.toNat - '0'.toNat

/-- Value of a decimal string, most significant digit first. -/
def decValue : List Char → Nat
  | [] => 0
  | c :: cs => digitVal c * 10 ^ cs.length + decValue cs

lemma decValue_append_singleton (l : List Char) (c : Char) :
    decValue (l ++ [c]) = 10 * decValue l + digitVal c := by
  induction l with
  | nil => simp [decValue]
  | cons x xs ih =>
      simp only [List.cons_append, decValue, ih, List.append_eq,
        List.length_append, List.length_cons, List.length_nil, pow_succ,
        pow_zero]
      ring

lemma digitVal_digitChar {d : Nat} (hd : d < 10) :
    digitVal (Nat.digitChar d) = d := by
  interval_cases d <;> decide

lemma toDigitsCore_append (fuel : Nat) :
    ∀ (n : Nat) (ds : List Char),
      Nat.toDigitsCore 10 fuel n ds = Nat.toDigitsCore 10 fuel n [] ++ ds := by
  induction fuel with
  | zero => intro n ds; simp [Nat.toDigitsCore]
  | succ fuel ih =>
      intro n ds
      simp only [Nat.toDigitsCore]
      by_cases h : n / 10 = 0
      · simp [h]
      · simp only [h, if_false]
        rw [ih (n / 10) (Nat.digitChar (n % 10) :: ds),
          ih (n / 10) [Nat.digitChar (n % 10)]]
        simp

lemma decValue_toDigitsCore (fuel : Nat) :
    ∀ n : Nat, n < fuel → decValue (Nat.toDigitsCore 10 fuel n []) = n := by
  induction fuel with
  | zero => intro n h; omega
  | succ fuel ih =>
      intro n h
      simp only [Nat.toDigitsCore]
      by_cases h0 : n / 10 = 0
      · have hn : n < 10 := by omega
        simp only [h0, if_true, decValue, List.length_nil, pow_zero,
          mul_one, Nat.add_zero]
        rw [digitVal_digitChar (Nat.mod_lt n (by omega))]
        omega
      · have hge : 10 ≤ n := by
          by_contra hlt
          exact h0 (Nat.div_eq_of_lt (by omega))
        have hdiv : n / 10 < fuel := by
          have : n / 10 < n := Nat.div_lt_self (by omega) (by omega)
          omega
        simp only [h0, if_false]
        rw [toDigitsCore_append fuel (n / 10) [Nat.digitChar (n % 10)],
          decValue_append_singleton, ih (n / 10) hdiv,
          digitVal_digitChar (Nat.mod_lt n (by omega))]
        omega

lemma decValue_toDigits (n : Nat) : decValue (Nat.toDigits 10 n) = n :=
  decValue_toDigitsCore (n + 1) n (Nat.lt_succ_self n)

lemma natRepr_injective : Function.Injective Nat.repr := by
  intro m n h
  have hdata : Nat.toDigits 10 m = Nat.toDigits 10 n := by
    have := congrArg String.data h
    simpa [Nat.repr, List.asString] using this
  have := congrArg decValue hdata
  rwa [decValue_toDigits, decValue_toDigits] at this

/-! ### The unique-name search of `duplicate_message` / `duplicate_signal` -/

/-- The candidate name `f"{base}_{n}"`. -/
def mkSuffixName (base : String) (n : Nat) : String :=
  base ++ "_" ++ Nat.repr n

lemma mkSuffixName_injective (base : String) :
    Function.Injective (mkSuffixName base) := by
  intro m n h
  apply natRepr_injective
  have hdata := congrArg String.data h
  simp only [mkSuffixName, String.data_append] at hdata
  exact String.ext (List.append_cancel_left hdata)

lemma mkSuffixName_length (base : String) (n : Nat) :
    base.length < (mkSuffixName base n).length := by
  simp only [mkSuffixName, String.length_append]
  have : 0 < "_".length := by decide
  omega

lemma mkSuffixName_ne_base (base : String) (n : Nat) :
    mkSuffixName base n ≠ base := by
  intro h
  have := mkSuffixName_length base n
  rw [h] at this
  omega

/-- There is always some unused suffix: the candidates are pairwise
distinct, so they cannot all lie in the finite list `names`. -/
lemma exists_fresh (base : String) (names : List String) :
    ∃ k : Nat, mkSuffixName base (k + 1) ∉ names := by
  by_contra hall
  push_neg at hall
  have hinj : Function.Injective (fun k : Nat => mkSuffixName base (k + 1)) := by
    intro a b h
    have := mkSuffixName_injective base h
    omega
  have hcard : (Finset.range (names.length + 1)).card ≤ names.toFinset.card := by
    apply Finset.card_le_card_of_injOn (fun k => mkSuffixName base (k + 1))
    · intro k _
      exact List.mem_toFinset.mpr (hall k)
    · exact hinj.injOn
  rw [Finset.card_range] at hcard
  have := names.toFinset_card_le
  omega

/-- The while-loop of `duplicate_message` / `duplicate_signal`: starting
from `f"{base}_1"` it increments the suffix until the candidate is not
among the sibling names, so it returns the candidate with the least
suffix `≥ 1` that is unused. -/
def uniqueName (base : String) (names : List String) : String :=
  mkSuffixName base (Nat.find (exists_fresh base names) + 1)

lemma uniqueName_not_mem (base : String) (names : List String) :
    uniqueName base names ∉ names :=
  Nat.find_spec (exists_fresh base names)

lemma uniqueName_least (base : String) (names : List String) :
    ∀ j : Nat, 1 ≤ j → j < Nat.find (exists_fresh base names) + 1 →
      mkSuffixName base j ∈ names := by
  intro j h1 hj
  have hlt : j - 1 < Nat.find (exists_fresh base names) := by omega
  have := Nat.find_min (exists_fresh base names) hlt
  simp only [not_not] at this
  have hj1 : j - 1 + 1 = j := by omega
  rwa [hj1] at this

lemma uniqueName_spec (base : String) (names : List String) :
    ∃ k : Nat, 1 ≤ k ∧ uniqueName base names = mkSuffixName base k ∧
      mkSuffixName base k ∉ names ∧
      ∀ j : Nat, 1 ≤ j → j < k → mkSuffixName base j ∈ names := by
  refine ⟨Nat.find (exists_fresh base names) + 1, by omega, rfl, ?_, ?_⟩
  · exact uniqueName_not_mem base names
  · exact uniqueName_least base names

/-! ### Document Model operations (`src/dbc_editor.py`)

Operations that raise before mutating anything return the editor
unchanged together with `some err`; a `none` error component means the
Python call returned normally. -/

/-- Python `DBCEditor.add_message`: initializes `{"messages": []}` when no
working data exists, then appends. -/
def add_message (e : Editor) (m : MsgData) : Editor :=
  match e.modifiedData with
  | none => { e with modifiedData := some [m] }
  | some msgs => { e with modifiedData := some (msgs ++ [m]) }

/-- Python `DBCEditor.update_message`: rejects only `idx >= len` (and a missing
working copy); negative indices reach the Python list assignment and wrap. -/
def update_message (e : Editor) (idx : Int) (m : MsgData) :
    Editor × Option EditorErr :=
  match e.modifiedData with
  | none => (e, some .invalidMessageIndex)
  | some msgs =>
    if (msgs.length : Int) ≤ idx then (e, some .invalidMessageIndex)
    else
      match pyIdx msgs.length idx with
      | none => (e, some .indexError)
      | some j => ({ e with modifiedData := some (msgs.set j m) }, none)

/-- Python `DBCEditor.delete_message`: same bound check as `update_message`. -/
def delete_message (e : Editor) (idx : Int) : Editor × Option EditorErr :=
  match e.modifiedData with
  | none => (e, some .invalidMessageIndex)
  | some msgs =>
    if (msgs.length : Int) ≤ idx then (e, some .invalidMessageIndex)
    else
      match pyIdx msgs.length idx with
      | none => (e, some .indexError)
      | some j => ({ e with modifiedData := some (msgs.eraseIdx j) }, none)

/-- Python `DBCEditor.add_signal`: appends in place to the signals-list object of
the addressed message. -/
def add_signal (e : Editor) (mi : Int) (s : SignalData) :
    Editor × Option EditorErr :=
  match e.modifiedData with
  | none => (e, some .invalidMessageIndex)
  | some msgs =>
    if (msgs.length : Int) ≤ mi then (e, some .invalidMessageIndex)
    else
      match pyIdx msgs.length mi with
      | none => (e, some .indexError)
      | some j =>
        let a := (msgs.getD j default).sigAddr
        ({ e with heap := hSet e.heap a (hGet e.heap a ++ [s]) }, none)

/-- Python `DBCEditor.update_signal`: bound checks are `msg_idx >= len(messages)`
and `sig_idx >= len(signals)` only; the store mutates the signals-list
object in place. -/
def update_signal (e : Editor) (mi si : Int) (s : SignalData) :
    Editor × Option EditorErr :=
  match e.modifiedData with
  | none => (e, some .invalidMessageIndex)
  | some msgs =>
    if (msgs.length : Int) ≤ mi then (e, some .invalidMessageIndex)
    else
      match pyIdx msgs.length mi with
      | none => (e, some .indexError)
      | some j =>
        let a := (msgs.getD j default).sigAddr
        let sigs := hGet e.heap a
        if (sigs.length : Int) ≤ si then (e, some .invalidSignalIndex)
        else
          match pyIdx sigs.length si with
          | none => (e, some .indexError)
          | some k => ({ e with heap := hSet e.heap a (sigs.set k s) }, none)

/-- Python `DBCEditor.delete_signal`. -/
def delete_signal (e : Editor) (mi si : Int) : Editor × Option EditorErr :=
  match e.modifiedData with
  | none => (e, some .invalidMessageIndex)
  | some msgs =>
    if (msgs.length : Int) ≤ mi then (e, some .invalidMessageIndex)
    else
      match pyIdx msgs.length mi with
      | none => (e, some .indexError)
      | some j =>
        let a := (msgs.getD j default).sigAddr
        let sigs := hGet e.heap a
        if (sigs.length : Int) ≤ si then (e, some .invalidSignalIndex)
        else
          match pyIdx sigs.length si with
          | none => (e, some .indexError)
          | some k => ({ e with heap := hSet e.heap a (sigs.eraseIdx k) }, none)

/-- Result of an operation that returns an index (`duplicate_*`,
`move_*`): the editor afterwards, the raised error if any, and the
returned index on normal completion. -/
structure IdxResult where
  editor : Editor
  err : Option EditorErr
  ret : Option Int
deriving DecidableEq

/-- Python `DBCEditor.duplicate_message`: explicit bound check `idx < 0 or
idx >= len`; the copy keeps every field value but gets a fresh signals
list (`[dict(sig) for sig in ...]`) and the first unused suffixed name;
it is appended at the end and `len - 1` is returned. -/
def duplicate_message (e : Editor) (idx : Int) : IdxResult :=
  match e.modifiedData with
  | none => ⟨e, some .invalidMessageIndex, none⟩
  | some msgs =>
    if idx < 0 ∨ (msgs.length : Int) ≤ idx then ⟨e, some .invalidMessageIndex, none⟩
    else
      let orig := msgs.getD idx.toNat default
      let newMsg : MsgData :=
        { orig with
          name := uniqueName orig.name (msgs.map (fun m => m.name)),
          sigAddr := e.heap.length }
      ⟨{ e with
          heap := e.heap ++ [hGet e.heap orig.sigAddr],
          modifiedData := some (msgs ++ [newMsg]) },
        none, some (msgs.length : Int)⟩

/-- Python `DBCEditor.duplicate_signal`: `new_signal = dict(original)` is a value
copy of the signal record; it is renamed with the first unused suffix and
appended in place to the same signals-list object. -/
def duplicate_signal (e : Editor) (mi si : Int) : IdxResult :=
  match e.modifiedData with
  | none => ⟨e, some .invalidMessageIndex, none⟩
  | some msgs =>
    if mi < 0 ∨ (msgs.length : Int) ≤ mi then ⟨e, some .invalidMessageIndex, none⟩
    else
      let a := (msgs.getD mi.toNat default).sigAddr
      let sigs := hGet e.heap a
      if si < 0 ∨ (sigs.length : Int) ≤ si then ⟨e, some .invalidSignalIndex, none⟩
      else
        let orig := sigs.getD si.toNat default
        let newSig : SignalData :=
          { orig with name := uniqueName orig.name (sigs.map (fun s => s.name)) }
        ⟨{ e with heap := hSet e.heap a (sigs ++ [newSig]) },
          none, some (sigs.length : Int)⟩

/-- Python `DBCEditor.move_message_up`: rejects `idx <= 0 or idx >= len`. -/
def move_message_up (e : Editor) (idx : Int) : IdxResult :=
  match e.modifiedData with
  | none => ⟨e, some .invalidMessageMove, none⟩
  | some msgs =>
    if idx ≤ 0 ∨ (msgs.length : Int) ≤ idx then ⟨e, some .invalidMessageMove, none⟩
    else
      ⟨{ e with modifiedData := some (listSwap msgs (idx.toNat - 1) idx.toNat) },
        none, some (idx - 1)⟩

/-- Python `DBCEditor.move_message_down`: rejects `idx < 0 or idx >= len - 1`
(Python `len(...) - 1` may be `-1`; the comparison is on integers). -/
def move_message_down (e : Editor) (idx : Int) : IdxResult :=
  match e.modifiedData with
  | none => ⟨e, some .invalidMessageMove, none⟩
  | some msgs =>
    if idx < 0 ∨ (msgs.length : Int) - 1 ≤ idx then ⟨e, some .invalidMessageMove, none⟩
    else
      ⟨{ e with modifiedData := some (listSwap msgs idx.toNat (idx.toNat + 1)) },
        none, some (idx + 1)⟩

/-- Python `DBCEditor.move_signal_up`: validates the message index first, then
rejects `sig_idx <= 0 or sig_idx >= len(signals)`. -/
def move_signal_up (e : Editor) (mi si : Int) : IdxResult :=
  match e.modifiedData with
  | none => ⟨e, some .invalidMessageIndex, none⟩
  | some msgs =>
    if mi < 0 ∨ (msgs.length : Int) ≤ mi then ⟨e, some .invalidMessageIndex, none⟩
    else
      let a := (msgs.getD mi.toNat default).sigAddr
      let sigs := hGet e.heap a
      if si ≤ 0 ∨ (sigs.length : Int) ≤ si then ⟨e, some .invalidSignalMove, none⟩
      else
        ⟨{ e with heap := hSet e.heap a (listSwap sigs (si.toNat - 1) si.toNat) },
          none, some (si - 1)⟩

/-- Python `DBCEditor.move_signal_down`: validates the message index first, then
rejects `sig_idx < 0 or sig_idx >= len(signals) - 1`. -/
def move_signal_down (e : Editor) (mi si : Int) : IdxResult :=
  match e.modifiedData with
  | none => ⟨e, some .invalidMessageIndex, none⟩
  | some msgs =>
    if mi < 0 ∨ (msgs.length : Int) ≤ mi then ⟨e, some .invalidMessageIndex, none⟩
    else
      let a := (msgs.getD mi.toNat default).sigAddr
      let sigs := hGet e.heap a
      if si < 0 ∨ (sigs.length : Int) - 1 ≤ si then ⟨e, some .invalidSignalMove, none⟩
      else
        ⟨{ e with heap := hSet e.heap a (listSwap sigs si.toNat (si.toNat + 1)) },
          none, some (si + 1)⟩

/-- Python `DBCEditor.reset_changes`: `[dict(m) for m in original]` is a shallow
copy — every message record value (including its signals-list address) is
reused. -/
def reset_changes (e : Editor) : Editor :=
  match e.originalData with
  | none => e
  | some msgs => { e with modifiedData := some msgs }

/-! ### Persistence Adapter (`load_dbc_file`, `save_dbc_file`) -/

/-- Python `str.lower()` on the ASCII range (file paths; Python semantics agree
on ASCII). -/
def strLower (s : String) : String := String.mk (s.data.map Char.toLower)

/-- Python `file_path.lower().endswith(".dbc")`. -/
def endsDbcLower (s : String) : Bool :=
  List.isSuffixOf ".dbc".data (strLower s).data

/-- One message as flattened from the external parse result by
`load_dbc_file`: the scalar fields together with the freshly built
signals list. -/
structure ParsedMsg where
  name : String
  frame_id : Int
  length : Int
  senders : List String
  signals : List SignalData
  comments : String
deriving DecidableEq

/-- The snapshot/working pair built at the end of `load_dbc_file`: the
original keeps the signals lists built during flattening, the working
copy gets fresh deep-copied lists, so each parsed message yields two
distinct signals-list objects with equal contents. -/
def loadMsgs : Heap → List ParsedMsg → Heap × List MsgData × List MsgData
  | h, [] => (h, [], [])
  | h, p :: rest =>
    let oRef : MsgData := ⟨p.name, p.frame_id, p.length, p.senders, h.length, p.comments⟩
    let mRef : MsgData := ⟨p.name, p.frame_id, p.length, p.senders, h.length + 1, p.comments⟩
    let r := loadMsgs (h ++ [p.signals, p.signals]) rest
    (r.1, oRef :: r.2.1, mRef :: r.2.2)

/-- Python `DBCEditor.load_dbc_file`.  The existence and extension checks come
first and leave the editor untouched; then `self.file_path` is assigned
before the external parse runs (`parsed = none` models a parse failure),
so a parse failure leaves the path assigned but the document unchanged. -/
def load_dbc_file (e : Editor) (fs : FS) (path : String)
    (parsed : Option (List ParsedMsg)) : Editor × Option EditorErr :=
  if fsExists fs path = false then (e, some .notFound)
  else if endsDbcLower path = false then (e, some .badExtension)
  else
    match parsed with
    | none => ({ e with filePath := some path }, some .parseError)
    | some pmsgs =>
      let r := loadMsgs e.heap pmsgs
      ({ e with
          heap := r.1,
          filePath := some path,
          originalData := some r.2.1,
          modifiedData := some r.2.2 }, none)

/-- Outcome of the external serialization in `save_dbc_file`:
the rebuild of the cantools object graph may fail (before the target file
is opened), `as_dbc_string()` may fail (after `open(file_path, "w")` has
already truncated the target), or it yields the text to write. -/
inductive SerOutcome where
  | buildFail
  | stringFail
  | ok (text : String)
deriving DecidableEq

/-- Python `DBCEditor.save_dbc_file`, with its filesystem effects in source
order: choose the path; if the target exists, copy it to
`path + ".backup"`; rebuild the cantools graph (fails on a missing
working copy or on `buildFail`); `open(file_path, "w")` truncates the
target; `as_dbc_string()` runs (`stringFail`); the text is written; the
original snapshot becomes `[dict(m) for m in modified]` — a shallow copy
reusing every signals-list address; finally the backup is deleted. -/
def save_dbc_file (e : Editor) (fs : FS) (pathArg : Option String)
    (ser : SerOutcome) : FS × Editor × Option EditorErr :=
  match (match pathArg with | some p => some p | none => e.filePath) with
  | none => (fs, e, some .noFilePath)
  | some path =>
    let fs1 :=
      if fsExists fs path then fsSet fs (path ++ ".backup") ((fsGet fs path).getD "")
      else fs
    match e.modifiedData, ser with
    | none, _ => (fs1, e, some .serializeError)
    | some _, .buildFail => (fs1, e, some .serializeError)
    | some _, .stringFail => (fsSet fs1 path "", e, some .serializeError)
    | some msgs, .ok text =>
      let fs2 := fsSet (fsSet fs1 path "") path text
      ((fsDel fs2 (path ++ ".backup")),
        { e with originalData := some msgs }, none)

/-! ### Change Tracker (`has_changes`, `get_changes_summary`) -/

/-- The per-message-pair part of `DBCEditor.has_changes`: positional
comparison of `name` and `frame_id`, then of the signal counts, then of
each signal dict (by value). -/
def msgPairDiff (h : Heap) (o m : MsgData) : Bool :=
  decide (¬ (o.name = m.name ∧ o.frame_id = m.frame_id)) ||
  decide ((hGet h o.sigAddr).length ≠ (hGet h m.sigAddr).length) ||
  (List.zip (hGet h o.sigAddr) (hGet h m.sigAddr)).any
    (fun p => decide (p.1 ≠ p.2))

/-- Python `DBCEditor.has_changes`: `False` when either snapshot is `None`,
otherwise the positional deep comparison (the `try` body never raises on
well-formed records, so the JSON fallback is dead code). -/
def has_changes (e : Editor) : Bool :=
  match e.originalData, e.modifiedData with
  | some orig, some modif =>
    decide (orig.length ≠ modif.length) ||
    (List.zip orig modif).any (fun p => msgPairDiff e.heap p.1 p.2)
  | _, _ => false

/-- Python dict equality `mod_msg != orig_msg` used by
`get_changes_summary`: all message fields by value, the signals lists by
their contents. -/
def msgValueEq (h : Heap) (o m : MsgData) : Bool :=
  decide (o.name = m.name ∧ o.frame_id = m.frame_id ∧ o.length = m.length ∧
    o.senders = m.senders ∧ hGet h o.sigAddr = hGet h m.sigAddr ∧
    o.comments = m.comments)

/-- Iteration order of the keys of `{x["name"]: x for x in l}`: first
occurrence order, deduplicated. -/
def dedupFirst : List String → List String
  | [] => []
  | x :: xs => x :: (dedupFirst xs).filter (fun y => y ≠ x)

/-- Value lookup in `{x["name"]: x for x in msgs}`: the last binding for
a repeated key wins. -/
def lookupMsg (msgs : List MsgData) (n : String) : Option MsgData :=
  (msgs.filter (fun m => m.name = n)).getLast?

/-- Value lookup in `{s["name"]: s for s in sigs}`. -/
def lookupSig (sigs : List SignalData) (n : String) : Option SignalData :=
  (sigs.filter (fun s => s.name = n)).getLast?

/-- The summary record returned by `get_changes_summary` (a fixed-schema
view of the Python dict; the no-change result carries empty lists for the
keys the Python dict omits). -/
structure ChangesSummary where
  has_changes : Bool
  added_messages : List String
  deleted_messages : List String
  modified_messages : List String
  added_signals : List String
  deleted_signals : List String
  modified_signals : List String
deriving DecidableEq

/-- Signal-level name-keyed diff of one message pair flagged as modified:
added / deleted / modified signal names, each qualified as
`f"{msg_name}.{sig_name}"`, in dict-key iteration order. -/
def sigDiffs (msgName : String) (origSigs modSigs : List SignalData) :
    List String × List String × List String :=
  let oNames := dedupFirst (origSigs.map (fun s => s.name))
  let mNames := dedupFirst (modSigs.map (fun s => s.name))
  let added := (mNames.filter (fun n => ¬ n ∈ oNames)).map
    (fun n => msgName ++ "." ++ n)
  let deleted := (oNames.filter (fun n => ¬ n ∈ mNames)).map
    (fun n => msgName ++ "." ++ n)
  let modified := (mNames.filter (fun n => n ∈ oNames ∧
      lookupSig modSigs n ≠ lookupSig origSigs n)).map
    (fun n => msgName ++ "." ++ n)
  (added, deleted, modified)

/-- Python `DBCEditor.get_changes_summary`: returns the no-change record when
`has_changes()` is false; otherwise re-keys both snapshots by message
name and reports name-keyed set differences, descending into signals only
for message pairs whose dicts compare unequal. -/
def get_changes_summary (e : Editor) : ChangesSummary :=
  if has_changes e = false then ⟨false, [], [], [], [], [], []⟩
  else
    match e.originalData, e.modifiedData with
    | some orig, some modif =>
      let oNames := dedupFirst (orig.map (fun m => m.name))
      let mNames := dedupFirst (modif.map (fun m => m.name))
      let addedMessages := mNames.filter (fun n => ¬ n ∈ oNames)
      let deletedMessages := oNames.filter (fun n => ¬ n ∈ mNames)
      let commonModified := mNames.filter (fun n =>
        decide (n ∈ oNames) &&
        (match lookupMsg orig n, lookupMsg modif n with
         | some om, some mm => ! msgValueEq e.heap om mm
         | _, _ => false))
      let perMsg := commonModified.map (fun n =>
        match lookupMsg orig n, lookupMsg modif n with
        | some om, some mm =>
          sigDiffs n (hGet e.heap om.sigAddr) (hGet e.heap mm.sigAddr)
        | _, _ => ([], [], []))
      ⟨true, addedMessages, deletedMessages, commonModified,
        (perMsg.map (fun t => t.1)).flatten,
        (perMsg.map (fun t => t.2.1)).flatten,
        (perMsg.map (fun t => t.2.2)).flatten⟩
    | _, _ => ⟨true, [], [], [], [], [], []⟩

/-! ### A concrete load/save/edit scenario

One message `M` (frame id 0x100, length 8) with one signal `S`
(start bit 0, length 8, unsigned, scale 1.0, offset 0.0), loaded from
`m.dbc` whose on-disk content is `ORIG`, then saved, then edited. -/

def sigS : SignalData := ⟨"S", 0, 8, false, 1, 0, none, none, "", [], ""⟩

def sigS2 : SignalData := { sigS with scale := 2 }

def sigT : SignalData := { sigS with name := "T", start_bit := 8 }

def pmM : ParsedMsg := ⟨"M", 256, 8, [], [sigS], ""⟩

def fs0 : FS := [("m.dbc", "ORIG")]

/-- Editor state right after `load_dbc_file("m.dbc")`. -/
def loadedEditor : Editor :=
  (load_dbc_file initEditor fs0 "m.dbc" (some [pmM])).1

/-- Editor state right after a successful `save_dbc_file()`. -/
def savedEditor : Editor :=
  (save_dbc_file loadedEditor fs0 none (.ok "NEW")).2.1

/-- Editor state after `update_signal(0, 0, ...)` changed the scale of
signal `S` in the working copy. -/
def mutatedEditor : Editor := (update_signal savedEditor 0 0 sigS2).1

/-! ### Claim theorems -/

/-- C1: the claim says a serialization failure during save leaves the
on-disk original file content unchanged.  In the code,
`open(file_path, "w")` truncates the target before `as_dbc_string()` is
evaluated, so a failure inside `as_dbc_string()` leaves the target file
empty — the original content `ORIG` is destroyed (the backup does remain
in place).  This theorem evaluates the failing run. -/
theorem c1_save_failure_truncates_target :
    (load_dbc_file initEditor fs0 "m.dbc" (some [pmM])).2 = none ∧
    fsGet fs0 "m.dbc" = some "ORIG" ∧
    (save_dbc_file loadedEditor fs0 none .stringFail).2.2 = some .serializeError ∧
    fsGet (save_dbc_file loadedEditor fs0 none .stringFail).1 "m.dbc" = some "" ∧
    fsGet (save_dbc_file loadedEditor fs0 none .stringFail).1 "m.dbc.backup" =
      some "ORIG" := by decide

/-- C2: the claim says the working copy never shares mutable
substructure with the original snapshot.  After a successful save the
snapshot is rebuilt with shallow `dict(m)` copies that reuse the signals-list
objects of the working copy, so the state reached by
load → save → `update_signal` has the working-copy mutation visible in
the original snapshot: its signal list reads `[sigS2]` although the
editor only wrote to the working copy. -/
theorem c2_snapshot_shares_signals_list_after_save :
    hGet savedEditor.heap
      (((savedEditor.originalData).getD []).getD 0 default).sigAddr = [sigS] ∧
    (update_signal savedEditor 0 0 sigS2).2 = none ∧
    sigS2 ≠ sigS ∧
    ((mutatedEditor.originalData).getD []).map
      (fun m => hGet mutatedEditor.heap m.sigAddr) = [[sigS2]] := by decide

/-- C3: the claim says `has_changes()` is false right after a save and
true after any single subsequent mutation.  It is false right after the
save, but the post-save snapshot aliases the signals
lists of the working copy, so the genuine signal mutation performed by `update_signal`
also rewrites the snapshot and `has_changes()` stays false. -/
theorem c3_has_changes_false_after_post_save_mutation :
    has_changes savedEditor = false ∧
    (update_signal savedEditor 0 0 sigS2).2 = none ∧
    sigS2 ≠ sigS ∧
    ((mutatedEditor.modifiedData).getD []).map
      (fun m => hGet mutatedEditor.heap m.sigAddr) = [[sigS2]] ∧
    has_changes mutatedEditor = false := by decide

/-- Messages `A` and `B` for the reordering scenario of C4. -/
def msgA : MsgData := ⟨"A", 256, 8, [], 0, ""⟩

def msgB : MsgData := ⟨"B", 512, 8, [], 1, ""⟩

/-- A working copy equal to the original snapshot except that the two
(otherwise identical) messages are swapped in position; the message records
of the working copy carry their own (deep-copied) signals lists. -/
def swapEditor : Editor :=
  ⟨[[sigS], [sigT], [sigS], [sigT]], none,
    some [msgA, msgB],
    some [{ msgB with sigAddr := 3 }, { msgA with sigAddr := 2 }]⟩

/-- C4: swapping two otherwise-identical messages makes the positional
`has_changes()` report true while the name-keyed `get_changes_summary()`
reports no added, deleted, or modified message or signal names. -/
theorem c4_swap_changes_positionally_but_not_by_name :
    has_changes swapEditor = true ∧
    get_changes_summary swapEditor = ⟨true, [], [], [], [], [], []⟩ := by decide

/-- C10: with no original snapshot (`_original_data is None`),
`has_changes()` returns false whatever the working copy holds; and
`add_message` succeeds in that state by initializing an empty working
list, after which `has_changes()` is still false although the working
list is non-empty. -/
theorem c10_no_original_snapshot_means_no_changes (e : Editor) (m : MsgData)
    (h : e.originalData = none) :
    has_changes e = false ∧
    (e.modifiedData = none →
      (add_message e m).modifiedData = some [m] ∧
      (add_message e m).originalData = none ∧
      has_changes (add_message e m) = false) := by
  constructor
  · simp [has_changes, h]
  · intro hm
    refine ⟨?_, ?_, ?_⟩ <;> simp [add_message, hm, has_changes, h]

theorem c10_no_original_snapshot_means_no_changes_witness :
    initEditor.originalData = none ∧ initEditor.modifiedData = none ∧
    (has_changes initEditor = false ∧
      (initEditor.modifiedData = none →
        (add_message initEditor msgA).modifiedData = some [msgA] ∧
        (add_message initEditor msgA).originalData = none ∧
        has_changes (add_message initEditor msgA) = false)) :=
  ⟨rfl, rfl, c10_no_original_snapshot_means_no_changes initEditor msgA rfl⟩

/-- A file whose name carries the extension in upper case. -/
def fsUpper : FS := [("a.DBC", "x")]

/-- C9 counterexample: the path `a.DBC` exists and does not end in the
(literal) suffix `.dbc`, yet `load_dbc_file` does not fail with the bad
extension condition — the code checks `file_path.lower()`, so the
extension test is case-insensitive. -/
theorem c9_counterexample_uppercase_extension_accepted :
    fsExists fsUpper "a.DBC" = true ∧
    List.isSuffixOf ".dbc".data "a.DBC".data = false ∧
    (load_dbc_file initEditor fsUpper "a.DBC" (some [])).2 = none := by decide

/-- C9 (amended): `load_dbc_file` fails with "not found" exactly when the
path does not exist, fails with "bad extension" when it exists but its
lowercased form does not end in `.dbc`, and otherwise fails with neither
condition; in both failure cases the editor state is untouched. -/
theorem c9_load_path_checks (e : Editor) (fs : FS) (path : String)
    (parsed : Option (List ParsedMsg)) :
    (fsExists fs path = false →
      load_dbc_file e fs path parsed = (e, some .notFound)) ∧
    (fsExists fs path = true → endsDbcLower path = false →
      load_dbc_file e fs path parsed = (e, some .badExtension)) ∧
    (fsExists fs path = true → endsDbcLower path = true →
      (load_dbc_file e fs path parsed).2 ≠ some .notFound ∧
      (load_dbc_file e fs path parsed).2 ≠ some .badExtension) := by
  refine ⟨?_, ?_, ?_⟩
  · intro hex
    simp [load_dbc_file, hex]
  · intro hex hext
    simp [load_dbc_file, hex, hext]
  · intro hex hext
    cases parsed <;> simp [load_dbc_file, hex, hext]

theorem c9_load_path_checks_witness :
    (fsExists fs0 "missing.dbc" = false ∧
      load_dbc_file initEditor fs0 "missing.dbc" none =
        (initEditor, some .notFound)) ∧
    (fsExists [("f.txt", "x")] "f.txt" = true ∧
      endsDbcLower "f.txt" = false ∧
      load_dbc_file initEditor [("f.txt", "x")] "f.txt" none =
        (initEditor, some .badExtension)) ∧
    (fsExists fs0 "m.dbc" = true ∧ endsDbcLower "m.dbc" = true ∧
      (load_dbc_file initEditor fs0 "m.dbc" none).2 ≠ some .notFound ∧
      (load_dbc_file initEditor fs0 "m.dbc" none).2 ≠ some .badExtension) :=
  ⟨⟨by decide,
      (c9_load_path_checks initEditor fs0 "missing.dbc" none).1 (by decide)⟩,
    ⟨by decide, by decide,
      (c9_load_path_checks initEditor [("f.txt", "x")] "f.txt" none).2.1
        (by decide) (by decide)⟩,
    ⟨by decide, by decide,
      (c9_load_path_checks initEditor fs0 "m.dbc" none).2.2
        (by decide) (by decide)⟩⟩

/-- A replacement message used by the index-bound scenarios. -/
def msgC : MsgData := ⟨"C", 768, 8, [], 0, ""⟩

/-- An editor whose working copy holds two messages with empty signal
lists. -/
def twoMsgEditor : Editor := ⟨[[], []], none, none, some [msgA, msgB]⟩

/-- C7 counterexample: `update_message` with the negative index `-1`
does not fail — the guard only checks `idx >= len`, so Python wrap-around
indexing replaces the last message.  This refutes the claim that every
negative index fails with an invalid-index error and leaves the list
unchanged. -/
theorem c7_counterexample_negative_index_accepted :
    (update_message twoMsgEditor (-1) msgC).2 = none ∧
    (update_message twoMsgEditor (-1) msgC).1.modifiedData =
      some [msgA, msgC] := by decide

lemma pyIdx_some_not_ge {len : Nat} {i : Int} {j : Nat}
    (h : pyIdx len i = some j) : ¬ ((len : Int) ≤ i) := by
  intro hle
  unfold pyIdx at h
  split_ifs at h with h1 h2 h3 <;> first | omega | exact Option.noConfusion h

/-- C7 (amended): every index `≥ len` (but not every negative index) is
rejected with the typed invalid-index error and leaves the editor
untouched, by `update_message`, `delete_message`, `add_signal`,
`update_signal` and `delete_signal` (message index); and a signal index
`≥ len(signals)` of an addressable message is rejected likewise. -/
theorem c7_out_of_bounds_ops_fail (e : Editor) (msgs : List MsgData)
    (h : e.modifiedData = some msgs) (m : MsgData) (s : SignalData) :
    (∀ i : Int, (msgs.length : Int) ≤ i →
      update_message e i m = (e, some .invalidMessageIndex) ∧
      delete_message e i = (e, some .invalidMessageIndex) ∧
      add_signal e i s = (e, some .invalidMessageIndex) ∧
      (∀ si : Int,
        update_signal e i si s = (e, some .invalidMessageIndex) ∧
        delete_signal e i si = (e, some .invalidMessageIndex))) ∧
    (∀ mi : Int, ∀ j : Nat, pyIdx msgs.length mi = some j →
      ∀ si : Int,
        ((hGet e.heap (msgs.getD j default).sigAddr).length : Int) ≤ si →
        update_signal e mi si s = (e, some .invalidSignalIndex) ∧
        delete_signal e mi si = (e, some .invalidSignalIndex)) := by
  constructor
  · intro i hi
    refine ⟨?_, ?_, ?_, fun si => ⟨?_, ?_⟩⟩ <;>
      simp [update_message, delete_message, add_signal, update_signal,
        delete_signal, h, hi]
  · intro mi j hj si hsi
    have hni := pyIdx_some_not_ge hj
    constructor
    · unfold update_signal
      rw [h]; dsimp only
      rw [if_neg hni, hj]; dsimp only
      rw [if_pos hsi]
    · unfold delete_signal
      rw [h]; dsimp only
      rw [if_neg hni, hj]; dsimp only
      rw [if_pos hsi]

theorem c7_out_of_bounds_ops_fail_witness :
    twoMsgEditor.modifiedData = some [msgA, msgB] ∧
    (([msgA, msgB].length : Int) ≤ 5 ∧
      update_message twoMsgEditor 5 msgC = (twoMsgEditor, some .invalidMessageIndex) ∧
      delete_message twoMsgEditor 5 = (twoMsgEditor, some .invalidMessageIndex) ∧
      add_signal twoMsgEditor 5 sigS = (twoMsgEditor, some .invalidMessageIndex) ∧
      (∀ si : Int,
        update_signal twoMsgEditor 5 si sigS = (twoMsgEditor, some .invalidMessageIndex) ∧
        delete_signal twoMsgEditor 5 si = (twoMsgEditor, some .invalidMessageIndex))) ∧
    (pyIdx [msgA, msgB].length 0 = some 0 ∧
      ((hGet twoMsgEditor.heap ([msgA, msgB].getD 0 default).sigAddr).length : Int) ≤ 0 ∧
      update_signal twoMsgEditor 0 0 sigS = (twoMsgEditor, some .invalidSignalIndex) ∧
      delete_signal twoMsgEditor 0 0 = (twoMsgEditor, some .invalidSignalIndex)) :=
  ⟨rfl,
    ⟨by decide,
      (c7_out_of_bounds_ops_fail twoMsgEditor [msgA, msgB] rfl msgC sigS).1 5
        (by decide)⟩,
    ⟨by decide, by decide,
      (c7_out_of_bounds_ops_fail twoMsgEditor [msgA, msgB] rfl msgC sigS).2 0 0
        (by decide) 0 (by decide)⟩⟩

/-- C8: moving the first message up or the last message down fails with
the move error and leaves the editor untouched; likewise the signal moves
at the boundaries of a signal list (for any message index: an
unaddressable message also fails without mutating anything). -/
theorem c8_move_at_boundary_fails (e : Editor) (msgs : List MsgData)
    (h : e.modifiedData = some msgs) :
    move_message_up e 0 = ⟨e, some .invalidMessageMove, none⟩ ∧
    move_message_down e ((msgs.length : Int) - 1) =
      ⟨e, some .invalidMessageMove, none⟩ ∧
    (∀ mi : Int,
      (move_signal_up e mi 0).editor = e ∧
      (move_signal_up e mi 0).err ≠ none) ∧
    (∀ mi : Int,
      (move_signal_down e mi
        (((hGet e.heap (msgs.getD mi.toNat default).sigAddr).length : Int) - 1)).editor = e ∧
      (move_signal_down e mi
        (((hGet e.heap (msgs.getD mi.toNat default).sigAddr).length : Int) - 1)).err ≠ none) := by
  refine ⟨?_, ?_, ?_, ?_⟩
  · simp [move_message_up, h]
  · simp [move_message_down, h]
  · intro mi
    unfold move_signal_up
    rw [h]
    by_cases hmi : mi < 0 ∨ (msgs.length : Int) ≤ mi
    · simp [hmi]
    · simp [hmi]
  · intro mi
    unfold move_signal_down
    rw [h]
    by_cases hmi : mi < 0 ∨ (msgs.length : Int) ≤ mi
    · simp [hmi]
    · simp [hmi]

theorem c8_move_at_boundary_fails_witness :
    twoMsgEditor.modifiedData = some [msgA, msgB] ∧
    (move_message_up twoMsgEditor 0 =
        ⟨twoMsgEditor, some .invalidMessageMove, none⟩ ∧
      move_message_down twoMsgEditor (([msgA, msgB].length : Int) - 1) =
        ⟨twoMsgEditor, some .invalidMessageMove, none⟩ ∧
      (∀ mi : Int,
        (move_signal_up twoMsgEditor mi 0).editor = twoMsgEditor ∧
        (move_signal_up twoMsgEditor mi 0).err ≠ none) ∧
      (∀ mi : Int,
        (move_signal_down twoMsgEditor mi
          (((hGet twoMsgEditor.heap
            ([msgA, msgB].getD mi.toNat default).sigAddr).length : Int) - 1)).editor =
          twoMsgEditor ∧
        (move_signal_down twoMsgEditor mi
          (((hGet twoMsgEditor.heap
            ([msgA, msgB].getD mi.toNat default).sigAddr).length : Int) - 1)).err ≠ none)) :=
  ⟨rfl, c8_move_at_boundary_fails twoMsgEditor [msgA, msgB] rfl⟩

/-! ### Reduction lemmas for the duplicate operations and the heap -/

lemma duplicate_message_eq (e : Editor) (msgs : List MsgData)
    (h : e.modifiedData = some msgs) (idx : Int) (h0 : 0 ≤ idx)
    (hlt : idx < (msgs.length : Int)) :
    duplicate_message e idx =
      ⟨{ e with
          heap := e.heap ++ [hGet e.heap (msgs.getD idx.toNat default).sigAddr],
          modifiedData := some (msgs ++ [{ msgs.getD idx.toNat default with
            name := uniqueName (msgs.getD idx.toNat default).name
              (msgs.map (fun m => m.name)),
            sigAddr := e.heap.length }]) },
        none, some (msgs.length : Int)⟩ := by
  unfold duplicate_message
  rw [h]; dsimp only
  rw [if_neg (by omega)]

lemma duplicate_signal_eq (e : Editor) (msgs : List MsgData)
    (h : e.modifiedData = some msgs) (mi si : Int) (hm0 : 0 ≤ mi)
    (hmlt : mi < (msgs.length : Int)) (hs0 : 0 ≤ si)
    (hslt : si < ((hGet e.heap (msgs.getD mi.toNat default).sigAddr).length : Int)) :
    duplicate_signal e mi si =
      ⟨{ e with
          heap := hSet e.heap (msgs.getD mi.toNat default).sigAddr
            (hGet e.heap (msgs.getD mi.toNat default).sigAddr ++
              [{ (hGet e.heap (msgs.getD mi.toNat default).sigAddr).getD si.toNat default with
                name := uniqueName
                  ((hGet e.heap (msgs.getD mi.toNat default).sigAddr).getD si.toNat default).name
                  ((hGet e.heap (msgs.getD mi.toNat default).sigAddr).map (fun s => s.name)) }]) },
        none, some ((hGet e.heap (msgs.getD mi.toNat default).sigAddr).length : Int)⟩ := by
  unfold duplicate_signal
  rw [h]; dsimp only
  rw [if_neg (by omega), if_neg (by omega)]

lemma hGet_append_new (h : Heap) (l : List SignalData) :
    hGet (h ++ [l]) h.length = l := by
  simp [hGet]

lemma hGet_append_old (h : Heap) (l : List SignalData) (a : Nat)
    (ha : a < h.length) : hGet (h ++ [l]) a = hGet h a := by
  simp [hGet, List.getElem?_append, ha]

lemma hGet_set_self (h : Heap) (a : Nat) (l : List SignalData)
    (ha : a < h.length) : hGet (hSet h a l) a = l := by
  simp [hGet, hSet, List.getElem?_set_self ha]

lemma hGet_set_ne (h : Heap) (a b : Nat) (l : List SignalData)
    (hab : b ≠ a) : hGet (hSet h a l) b = hGet h b := by
  simp [hGet, hSet, List.getElem?_set_ne (fun hh => hab hh.symm)]

lemma hGet_ne_nil_lt (h : Heap) (a : Nat) (hne : hGet h a ≠ []) :
    a < h.length := by
  by_contra hge
  have hnone : h[a]? = none := List.getElem?_eq_none (by omega)
  simp [hGet, hnone] at hne

/-- C5: for every valid index, `duplicate_message` and `duplicate_signal`
succeed and the name of the copy is `base_k` for the least suffix `k ≥ 1`
such that `base_k` is not among the sibling names present at the time of
duplication (in particular the name of the copy collides with no sibling). -/
theorem c5_duplicate_picks_lowest_unused_suffix (e : Editor)
    (msgs : List MsgData) (h : e.modifiedData = some msgs) :
    (∀ idx : Int, 0 ≤ idx → idx < (msgs.length : Int) →
      (duplicate_message e idx).err = none ∧
      ∃ newMsg : MsgData,
        (duplicate_message e idx).editor.modifiedData = some (msgs ++ [newMsg]) ∧
        ∃ k : Nat, 1 ≤ k ∧
          newMsg.name = mkSuffixName (msgs.getD idx.toNat default).name k ∧
          newMsg.name ∉ msgs.map (fun m => m.name) ∧
          ∀ j : Nat, 1 ≤ j → j < k →
            mkSuffixName (msgs.getD idx.toNat default).name j ∈
              msgs.map (fun m => m.name)) ∧
    (∀ mi si : Int, 0 ≤ mi → mi < (msgs.length : Int) → 0 ≤ si →
      si < ((hGet e.heap (msgs.getD mi.toNat default).sigAddr).length : Int) →
      (duplicate_signal e mi si).err = none ∧
      ∃ newSig : SignalData,
        hGet (duplicate_signal e mi si).editor.heap
            (msgs.getD mi.toNat default).sigAddr =
          hGet e.heap (msgs.getD mi.toNat default).sigAddr ++ [newSig] ∧
        ∃ k : Nat, 1 ≤ k ∧
          newSig.name = mkSuffixName
            ((hGet e.heap (msgs.getD mi.toNat default).sigAddr).getD
              si.toNat default).name k ∧
          newSig.name ∉
            (hGet e.heap (msgs.getD mi.toNat default).sigAddr).map
              (fun s => s.name) ∧
          ∀ j : Nat, 1 ≤ j → j < k →
            mkSuffixName
              ((hGet e.heap (msgs.getD mi.toNat default).sigAddr).getD
                si.toNat default).name j ∈
              (hGet e.heap (msgs.getD mi.toNat default).sigAddr).map
                (fun s => s.name)) := by
  constructor
  · intro idx h0 hlt
    rw [duplicate_message_eq e msgs h idx h0 hlt]
    refine ⟨rfl, ⟨_, rfl, ?_⟩⟩
    obtain ⟨k, hk1, hkeq, hknot, hkleast⟩ :=
      uniqueName_spec (msgs.getD idx.toNat default).name
        (msgs.map (fun m => m.name))
    exact ⟨k, hk1, hkeq, hkeq ▸ hknot, hkleast⟩
  · intro mi si hm0 hmlt hs0 hslt
    rw [duplicate_signal_eq e msgs h mi si hm0 hmlt hs0 hslt]
    have halt : (msgs.getD mi.toNat default).sigAddr < e.heap.length := by
      apply hGet_ne_nil_lt
      intro hnil
      rw [hnil] at hslt
      simp at hslt
      omega
    obtain ⟨k, hk1, hkeq, hknot, hkleast⟩ :=
      uniqueName_spec
        ((hGet e.heap (msgs.getD mi.toNat default).sigAddr).getD
          si.toNat default).name
        ((hGet e.heap (msgs.getD mi.toNat default).sigAddr).map
          (fun s => s.name))
    exact ⟨rfl,
      { (hGet e.heap (msgs.getD mi.toNat default).sigAddr).getD si.toNat default with
          name := uniqueName
            ((hGet e.heap (msgs.getD mi.toNat default).sigAddr).getD
              si.toNat default).name
            ((hGet e.heap (msgs.getD mi.toNat default).sigAddr).map
              (fun s => s.name)) },
      hGet_set_self e.heap _ _ halt, k, hk1, hkeq, hkeq ▸ hknot, hkleast⟩

/-- An editor used to witness the duplicate claims: one message with two
signals. -/
def dupEditor : Editor := ⟨[[sigS, sigT]], none, none, some [msgA]⟩

theorem c5_duplicate_picks_lowest_unused_suffix_witness :
    dupEditor.modifiedData = some [msgA] ∧
    (0 : Int) ≤ 0 ∧ (0 : Int) < (([msgA] : List MsgData).length : Int) ∧
    ((duplicate_message dupEditor 0).err = none ∧
      ∃ newMsg : MsgData,
        (duplicate_message dupEditor 0).editor.modifiedData =
          some ([msgA] ++ [newMsg]) ∧
        ∃ k : Nat, 1 ≤ k ∧
          newMsg.name = mkSuffixName (([msgA] : List MsgData).getD (0 : Int).toNat default).name k ∧
          newMsg.name ∉ ([msgA] : List MsgData).map (fun m => m.name) ∧
          ∀ j : Nat, 1 ≤ j → j < k →
            mkSuffixName (([msgA] : List MsgData).getD (0 : Int).toNat default).name j ∈
              ([msgA] : List MsgData).map (fun m => m.name)) ∧
    ((duplicate_signal dupEditor 0 0).err = none ∧
      ∃ newSig : SignalData,
        hGet (duplicate_signal dupEditor 0 0).editor.heap
            (([msgA] : List MsgData).getD (0 : Int).toNat default).sigAddr =
          hGet dupEditor.heap (([msgA] : List MsgData).getD (0 : Int).toNat default).sigAddr ++
            [newSig] ∧
        ∃ k : Nat, 1 ≤ k ∧
          newSig.name = mkSuffixName
            ((hGet dupEditor.heap
              (([msgA] : List MsgData).getD (0 : Int).toNat default).sigAddr).getD
              (0 : Int).toNat default).name k ∧
          newSig.name ∉
            (hGet dupEditor.heap
              (([msgA] : List MsgData).getD (0 : Int).toNat default).sigAddr).map
              (fun s => s.name) ∧
          ∀ j : Nat, 1 ≤ j → j < k →
            mkSuffixName
              ((hGet dupEditor.heap
                (([msgA] : List MsgData).getD (0 : Int).toNat default).sigAddr).getD
                (0 : Int).toNat default).name j ∈
              (hGet dupEditor.heap
                (([msgA] : List MsgData).getD (0 : Int).toNat default).sigAddr).map
                (fun s => s.name)) :=
  ⟨rfl, by decide, by decide,
    (c5_duplicate_picks_lowest_unused_suffix dupEditor [msgA] rfl).1 0
      (by decide) (by decide),
    (c5_duplicate_picks_lowest_unused_suffix dupEditor [msgA] rfl).2 0 0
      (by decide) (by decide) (by decide) (by decide)⟩

/-- C6: for every valid index, `duplicate_message` appends the copy at
the end of the message list and returns that last position, leaves every
pre-existing message unchanged and in order (including its signals-list
contents), and the copy keeps every field value of the original (the
signals of the copy are a fresh list with the same contents) except for
the freshly suffixed name; `duplicate_signal` does the analogue inside
the signals list of the addressed message, mutating no other heap cell. -/
theorem c6_duplicate_appends_copy_at_end (e : Editor) (msgs : List MsgData)
    (h : e.modifiedData = some msgs)
    (hwf : ∀ m ∈ msgs, m.sigAddr < e.heap.length) :
    (∀ idx : Int, 0 ≤ idx → idx < (msgs.length : Int) →
      (duplicate_message e idx).err = none ∧
      (duplicate_message e idx).ret = some (msgs.length : Int) ∧
      ∃ nm : String,
        (duplicate_message e idx).editor.modifiedData =
          some (msgs ++ [{ msgs.getD idx.toNat default with
            name := nm, sigAddr := e.heap.length }]) ∧
        nm ≠ (msgs.getD idx.toNat default).name ∧
        hGet (duplicate_message e idx).editor.heap e.heap.length =
          hGet e.heap (msgs.getD idx.toNat default).sigAddr ∧
        (∀ m ∈ msgs,
          hGet (duplicate_message e idx).editor.heap m.sigAddr =
            hGet e.heap m.sigAddr)) ∧
    (∀ mi si : Int, 0 ≤ mi → mi < (msgs.length : Int) → 0 ≤ si →
      si < ((hGet e.heap (msgs.getD mi.toNat default).sigAddr).length : Int) →
      (duplicate_signal e mi si).err = none ∧
      (duplicate_signal e mi si).ret =
        some ((hGet e.heap (msgs.getD mi.toNat default).sigAddr).length : Int) ∧
      (duplicate_signal e mi si).editor.modifiedData = e.modifiedData ∧
      ∃ nm : String,
        hGet (duplicate_signal e mi si).editor.heap
            (msgs.getD mi.toNat default).sigAddr =
          hGet e.heap (msgs.getD mi.toNat default).sigAddr ++
            [{ (hGet e.heap (msgs.getD mi.toNat default).sigAddr).getD
                si.toNat default with name := nm }] ∧
        nm ≠ ((hGet e.heap (msgs.getD mi.toNat default).sigAddr).getD
          si.toNat default).name ∧
        (∀ b : Nat, b ≠ (msgs.getD mi.toNat default).sigAddr →
          hGet (duplicate_signal e mi si).editor.heap b = hGet e.heap b)) := by
  constructor
  · intro idx h0 hlt
    rw [duplicate_message_eq e msgs h idx h0 hlt]
    refine ⟨rfl, rfl, _, rfl, ?_, ?_, ?_⟩
    · obtain ⟨k, _, hkeq, _, _⟩ :=
        uniqueName_spec (msgs.getD idx.toNat default).name
          (msgs.map (fun m => m.name))
      rw [hkeq]
      exact mkSuffixName_ne_base _ k
    · exact hGet_append_new e.heap _
    · intro m hm
      exact hGet_append_old e.heap _ m.sigAddr (hwf m hm)
  · intro mi si hm0 hmlt hs0 hslt
    have halt : (msgs.getD mi.toNat default).sigAddr < e.heap.length := by
      apply hGet_ne_nil_lt
      intro hnil
      rw [hnil] at hslt
      simp at hslt
      omega
    obtain ⟨k, _, hkeq, _, _⟩ :=
      uniqueName_spec
        ((hGet e.heap (msgs.getD mi.toNat default).sigAddr).getD
          si.toNat default).name
        ((hGet e.heap (msgs.getD mi.toNat default).sigAddr).map
          (fun s => s.name))
    rw [duplicate_signal_eq e msgs h mi si hm0 hmlt hs0 hslt, hkeq]
    refine ⟨rfl, rfl, rfl,
      mkSuffixName
        ((hGet e.heap (msgs.getD mi.toNat default).sigAddr).getD
          si.toNat default).name k,
      hGet_set_self e.heap _ _ halt, ?_, ?_⟩
    · exact mkSuffixName_ne_base _ k
    · intro b hb
      exact hGet_set_ne e.heap _ b _ hb

theorem c6_duplicate_appends_copy_at_end_witness :
    dupEditor.modifiedData = some [msgA] ∧
    (∀ m ∈ ([msgA] : List MsgData), m.sigAddr < dupEditor.heap.length) ∧
    ((duplicate_message dupEditor 0).err = none ∧
      (duplicate_message dupEditor 0).ret = some (([msgA] : List MsgData).length : Int) ∧
      ∃ nm : String,
        (duplicate_message dupEditor 0).editor.modifiedData =
          some ([msgA] ++ [{ ([msgA] : List MsgData).getD (0 : Int).toNat default with
            name := nm, sigAddr := dupEditor.heap.length }]) ∧
        nm ≠ (([msgA] : List MsgData).getD (0 : Int).toNat default).name ∧
        hGet (duplicate_message dupEditor 0).editor.heap dupEditor.heap.length =
          hGet dupEditor.heap (([msgA] : List MsgData).getD (0 : Int).toNat default).sigAddr ∧
        (∀ m ∈ ([msgA] : List MsgData),
          hGet (duplicate_message dupEditor 0).editor.heap m.sigAddr =
            hGet dupEditor.heap m.sigAddr)) ∧
    ((duplicate_signal dupEditor 0 1).err = none ∧
      (duplicate_signal dupEditor 0 1).ret =
        some ((hGet dupEditor.heap
          (([msgA] : List MsgData).getD (0 : Int).toNat default).sigAddr).length : Int) ∧
      (duplicate_signal dupEditor 0 1).editor.modifiedData = dupEditor.modifiedData ∧
      ∃ nm : String,
        hGet (duplicate_signal dupEditor 0 1).editor.heap
            (([msgA] : List MsgData).getD (0 : Int).toNat default).sigAddr =
          hGet dupEditor.heap (([msgA] : List MsgData).getD (0 : Int).toNat default).sigAddr ++
            [{ (hGet dupEditor.heap
                (([msgA] : List MsgData).getD (0 : Int).toNat default).sigAddr).getD
                (1 : Int).toNat default with name := nm }] ∧
        nm ≠ ((hGet dupEditor.heap
          (([msgA] : List MsgData).getD (0 : Int).toNat default).sigAddr).getD
          (1 : Int).toNat default).name ∧
        (∀ b : Nat, b ≠ (([msgA] : List MsgData).getD (0 : Int).toNat default).sigAddr →
          hGet (duplicate_signal dupEditor 0 1).editor.heap b =
            hGet dupEditor.heap b)) :=
  ⟨rfl, by decide,
    (c6_duplicate_appends_copy_at_end dupEditor [msgA] rfl (by decide)).1 0
      (by decide) (by decide),
    (c6_duplicate_appends_copy_at_end dupEditor [msgA] rfl (by decide)).2 0 1
      (by decide) (by decide) (by decide) (by decide)⟩

end DbcUtility
